import Mathlib

/-!
Verification of the tree-rewrite engine of the `maybe-async-cfg2` repository
(`src/visitor_async.rs`, `src/lib.rs`) against its natural-language
specification.  The Rust syntax-tree fragments relevant to the claims are
shallowly embedded as Lean inductive types; each rewriting function of
`visitor_async.rs` is translated into a Lean function over those types.
Rust `panic!` / out-of-bounds indexing is modelled by the `POutcome.panicked`
constructor, `syn::Result` errors by `Except.error`.
-/

namespace MaybeAsyncCfg

/-- The conversion mode of one variant (`params::ConvertMode` in the source):
`intoSync` converts to blocking code, `intoAsync` keeps suspending code. -/
inductive ConvertMode where
  | intoSync
  | intoAsync
  deriving DecidableEq, Repr

/-- Outcome of a Rust computation that can abort abnormally: `ok` is normal
return, `panicked` models a Rust `panic!` or a panicking index operation.
Distinct from `Except`, which models `syn::Result` diagnostics. -/
inductive POutcome (α : Type) where
  | ok (val : α)
  | panicked (msg : String)
  deriving Repr

def POutcome.bind {α β : Type} : POutcome α → (α → POutcome β) → POutcome β
  | .ok a, f => f a
  | .panicked m, _ => .panicked m

/- ## Paths, path segments, generic arguments and types

Embedding of the `syn` fragments `PathSegment`, `PathArguments`,
`GenericArgument` and `Type` used by the generic-bound substitution pass.
A `syn::Path` is embedded as its list of segments. -/

mutual

/-- `syn::PathSegment`: an identifier with optional path arguments. -/
inductive PathSeg : Type where
  | mk (ident : String) (args : PathArgs)

/-- `syn::PathArguments`. -/
inductive PathArgs : Type where
  | noArgs
  | angleBracketed (args : List GenArg)
  | parenthesized

/-- `syn::GenericArgument`: only the `Binding` form (`Output = Type`) is
distinguished by the source; every other form is `otherArg`. -/
inductive GenArg : Type where
  | binding (ident : String) (ty : Ty)
  | otherArg

/-- `syn::Type`: only the `Path` form is distinguished by the source. -/
inductive Ty : Type where
  | path (segments : List PathSeg)
  | otherTy

end

def PathSeg.ident : PathSeg → String
  | .mk i _ => i

/- ## Attributes and meta items

`syn::NestedMeta` / `syn::Meta` are embedded as one inductive `NMeta`:
the constructors `mpath`, `mnameValue`, `mlist` are the three `syn::Meta`
forms (each carrying its path as a segment-identifier list) and `mlit` is
`syn::NestedMeta::Lit`. -/

/-- `syn::Lit`: only string literals are distinguished by the source. -/
inductive Lit where
  | str (value : String)
  | otherLit
  deriving DecidableEq, Repr

/-- Flattened `syn::Meta` / `syn::NestedMeta`. -/
inductive NMeta : Type where
  | mpath (segments : List String)
  | mnameValue (segments : List String) (lit : Lit)
  | mlist (segments : List String) (nested : List NMeta)
  | mlit (l : Lit)

/-- `syn::Path::get_ident`: the single identifier of a one-segment path. -/
def path_get_ident : List String → Option String
  | [s] => some s
  | _ => none

/-- The argument tokens of a `syn::Attribute`, as far as the source inspects
them: empty, a parenthesized meta list, a `= lit` pair, or tokens that do
not parse as a meta item. -/
inductive AttrArgs : Type where
  | noArgs
  | list (nested : List NMeta)
  | nameValue (lit : Lit)
  | raw (tokens : String)

/-- `syn::Attribute`: a path and argument tokens. -/
structure Attr : Type where
  path : List String
  args : AttrArgs

/-- `syn::Attribute::parse_meta`: combines the attribute path with its
argument tokens into a meta item; fails on unparsable tokens. -/
def attr_parse_meta (a : Attr) : Option NMeta :=
  match a.args with
  | .noArgs => some (.mpath a.path)
  | .list nested => some (.mlist a.path nested)
  | .nameValue l => some (.mnameValue a.path l)
  | .raw _ => none

/- ## Expressions, blocks, statements (for `process_expr`) -/

mutual

/-- `syn::Expr`, restricted to the constructors `process_expr` matches on:
`Await`, `Async` and `Block`; every other expression is `otherExpr`. -/
inductive Expr : Type where
  | Await (attrs : List Attr) (base : Expr)
  | Async (attrs : List Attr) (block : Block)
  | Block (attrs : List Attr) (label : Option String) (block : Block)
  | otherExpr (data : String)

/-- `syn::Block`: a brace-delimited statement list. -/
inductive Block : Type where
  | mk (stmts : List Stmt)

/-- `syn::Stmt`: a trailing expression statement (`Expr`), an expression
with a semicolon (`Semi`), or any other statement (let bindings, items). -/
inductive Stmt : Type where
  | expr (e : Expr)
  | semi (e : Expr)
  | otherStmt (data : String)

end

/-- Models `syn::parse_quote!(#stmt)` coercing one statement back into an
expression: the printed statement parses as an expression exactly when it is
a trailing expression statement (a `Semi` statement or a `let`/item
statement keeps its trailing tokens and fails the expression parser, which
`parse_quote!` turns into a panic, modelled here by `none`). -/
def parse_stmt_as_expr : Stmt → Option Expr
  | .expr e => some e
  | _ => none

/-- `AsyncAwaitVisitor::process_expr` (visitor_async.rs:373-409).  Returns
`none` when the source would panic inside `parse_quote!`. -/
def process_expr (mode : ConvertMode) (node : Expr) : Option Expr :=
  match mode with
  | .intoSync =>
    match node with
    | .Await _ base => some base
    | .Async attrs (.mk stmts) =>
      match stmts with
      | [s] => parse_stmt_as_expr s
      | _ => some (.Block attrs none (.mk stmts))
    | e => some e
  | .intoAsync => some node

/- ## Generic-binding scopes (`AsyncAwaitVisitor::generics`) -/

/-- One generic-binding scope: the `HashMap<String, syn::PathSegment>`
pushed for one function, embedded as an association list with
overwrite-on-insert semantics. -/
abbrev Scope : Type := List (String × PathSeg)

/-- `HashMap::get`. -/
def scope_get (s : Scope) (k : String) : Option PathSeg :=
  (s.find? (fun p => p.1 == k)).map (fun p => p.2)

/-- `HashMap::insert` (overwrites an existing entry for the key). -/
def scope_insert (s : Scope) (k : String) (v : PathSeg) : Scope :=
  (k, v) :: s.filter (fun p => !(p.1 == k))

/-- The visitor's scope stack `Vec<HashMap<String, syn::PathSegment>>`. -/
abbrev GenStack : Type := List Scope

/-- `Vec::push`: appends at the back of the vector. -/
def generics_push (st : GenStack) (g : Scope) : GenStack := st ++ [g]

/-- `Vec::pop`: removes the last element (no-op on an empty vector). -/
def generics_pop (st : GenStack) : GenStack := st.dropLast

/-- `AsyncAwaitVisitor::generics_get` (visitor_async.rs:38-46): iterates the
scope vector from index 0 (the first-pushed scope) upwards and returns the
first binding found for the key. -/
def generics_get (st : GenStack) (key : String) : Option PathSeg :=
  match st with
  | [] => none
  | g :: rest =>
    match scope_get g key with
    | some ps => some ps
    | none => generics_get rest key

/- ## Generic parameters, bounds, where clauses -/

/-- `syn::TypeParamBound`: a trait bound carries its path's segments. -/
inductive TypeParamBound : Type where
  | traitBound (segments : List PathSeg)
  | otherBound

/-- `syn::GenericParam`: a type parameter with its bounds, or any other
generic parameter (lifetime, const). -/
inductive GenericParam : Type where
  | type (ident : String) (bounds : List TypeParamBound)
  | otherParam

/-- `syn::WherePredicate`: a type predicate `bounded_ty : bounds`, or any
other predicate. -/
inductive WherePredicate : Type where
  | type (bounded_ty : Ty) (bounds : List TypeParamBound)
  | otherPred

/-- `search_future_trait_bound` (visitor_async.rs:49-67): for a trait bound
whose last path segment is `Future` with angle-bracketed arguments whose
first argument is a binding `Ident = Type` with a path type, return that
type's first segment.  Every non-matching shape falls through to `none`
without an error; indexing an empty segment or argument list panics. -/
def search_future_trait_bound (bound : TypeParamBound) : POutcome (Option PathSeg) :=
  match bound with
  | .traitBound segs =>
    match segs.getLast? with
    | none => .panicked "index out of bounds"
    | some (.mk name args) =>
      if name == "Future" then
        match args with
        | .angleBracketed gargs =>
          match gargs with
          | [] => .panicked "index out of bounds"
          | .binding _ (Ty.path psegs) :: _ =>
            match psegs with
            | [] => .panicked "index out of bounds"
            | p0 :: _ => .ok (some p0)
          | .binding _ Ty.otherTy :: _ => .ok none
          | .otherArg :: _ => .ok none
        | _ => .ok none
      else .ok none
  | .otherBound => .ok none

/-- The inner loop of `process_item` over one parameter's bound list:
inserts `name ↦ ps` for every bound recognized by
`search_future_trait_bound`. -/
def collect_bounds (gens : Scope) (name : String) :
    List TypeParamBound → POutcome Scope
  | [] => .ok gens
  | b :: rest =>
    match search_future_trait_bound b with
    | .panicked m => .panicked m
    | .ok none => collect_bounds gens name rest
    | .ok (some ps) => collect_bounds (scope_insert gens name ps) name rest

/-- The loop of `process_item` over `sig.generics.params`
(visitor_async.rs:419-431). -/
def collect_params (gens : Scope) : List GenericParam → POutcome Scope
  | [] => .ok gens
  | .type id bounds :: rest =>
    match collect_bounds gens id bounds with
    | .panicked m => .panicked m
    | .ok g => collect_params g rest
  | .otherParam :: rest => collect_params gens rest

/-- The loop of `process_item` over the where clause
(visitor_async.rs:433-450).  A type predicate whose bounded type is not a
path panics with `"Please submit an issue"`; a path bounded type
contributes its first segment's identifier. -/
def collect_where (gens : Scope) : List WherePredicate → POutcome Scope
  | [] => .ok gens
  | .type bty bounds :: rest =>
    match bty with
    | .path segs =>
      match segs with
      | [] => .panicked "index out of bounds"
      | s0 :: _ =>
        match collect_bounds gens s0.ident bounds with
        | .panicked m => .panicked m
        | .ok g => collect_where g rest
    | .otherTy => .panicked "Please submit an issue"
  | .otherPred :: rest => collect_where gens rest

/-- The generic-binding map collected for one function by `process_item`:
parameters first, then the where clause. -/
def collect_fn_gens (params : List GenericParam)
    (whereClause : Option (List WherePredicate)) : POutcome Scope :=
  (collect_params [] params).bind fun g =>
    match whereClause with
    | some preds => collect_where g preds
    | none => .ok g

/- ## Items and the traversal -/

mutual

/-- A `syn::Item` as far as the scope stack is concerned: a function item
carrying its generic parameters, where clause and nested items, or any
other item carrying nested items. -/
inductive Item : Type where
  | fn (generics : List GenericParam) (whereClause : Option (List WherePredicate))
      (body : Forest)
  | other (children : Forest)

/-- A list of sibling items. -/
inductive Forest : Type where
  | nil
  | cons (head : Item) (tail : Forest)

end

/-- The second half of `process_item` (visitor_async.rs:455-474): removes
every generic type parameter whose name is bound somewhere on the scope
stack. -/
def filter_fn_generics (st : GenStack) (params : List GenericParam) :
    List GenericParam :=
  params.filter fun p =>
    match p with
    | .type id _ => (generics_get st id).isNone
    | .otherParam => true

/-- The where-clause filter of `process_item` (visitor_async.rs:477-501):
removes every type predicate whose path bounded type's first segment is
bound somewhere on the scope stack. -/
def filter_fn_where (st : GenStack) (preds : List WherePredicate) :
    List WherePredicate :=
  preds.filter fun p =>
    match p with
    | .type (.path (s0 :: _)) _ => (generics_get st s0.ident).isNone
    | _ => true

/-- `AsyncAwaitVisitor::process_item` (visitor_async.rs:411-508): under
`intoSync`, for a function item, collect the Future-bound generic bindings,
push them as one new scope, and filter the signature's generic parameters
and where clause against the extended stack; all other items and the
`intoAsync` mode leave the item and the stack unchanged. -/
def process_item (mode : ConvertMode) (item : Item) (st : GenStack) :
    POutcome (Item × GenStack) :=
  match mode with
  | .intoSync =>
    match item with
    | .fn generics wc body =>
      (collect_fn_gens generics wc).bind fun g =>
        let st' := generics_push st g
        let generics' := filter_fn_generics st' generics
        let wc' := wc.map (filter_fn_where st')
        .ok (.fn generics' wc' body, st')
    | .other c => .ok (.other c, st)
  | .intoAsync => .ok (item, st)

/-- `AsyncAwaitVisitor::after_process_item` (visitor_async.rs:510-521):
under `intoSync`, pops one scope when leaving a function item; all other
cases leave the stack unchanged. -/
def after_process_item (mode : ConvertMode) (item : Item) (st : GenStack) :
    GenStack :=
  match mode with
  | .intoSync =>
    match item with
    | .fn _ _ _ => generics_pop st
    | .other _ => st
  | .intoAsync => st

mutual

/-- Modelled from the spec: the visitor framework (`visit_ext.rs`, not under
`src/`) performs a depth-first traversal that calls `process_item` on an
item before visiting its children and `after_process_item` after.  Since
`process_item` never changes an item's constructor nor its child list, the
recursion here descends into the original children; only the scope-stack
thread is tracked. -/
def traverse (mode : ConvertMode) : Item → GenStack → POutcome GenStack
  | item@(.fn _ _ body), st =>
    match process_item mode item st with
    | .panicked m => .panicked m
    | .ok (_, st') =>
      match traverse_forest mode body st' with
      | .panicked m => .panicked m
      | .ok st'' => .ok (after_process_item mode item st'')
  | item@(.other children), st =>
    match process_item mode item st with
    | .panicked m => .panicked m
    | .ok (_, st') =>
      match traverse_forest mode children st' with
      | .panicked m => .panicked m
      | .ok st'' => .ok (after_process_item mode item st'')

/-- Modelled from the spec: traversal of sibling items in order, threading
the scope stack. -/
def traverse_forest (mode : ConvertMode) : Forest → GenStack → POutcome GenStack
  | .nil, st => .ok st
  | .cons i rest, st =>
    match traverse mode i st with
    | .panicked m => .panicked m
    | .ok st' => traverse_forest mode rest st'

end

/-- `AsyncAwaitVisitor::process_path_segment` (visitor_async.rs:547-558):
a path segment whose identifier is bound on the scope stack is replaced by
the recorded segment. -/
def process_path_segment (st : GenStack) (node : PathSeg) : PathSeg :=
  match generics_get st node.ident with
  | some ps => ps
  | none => node

/- ## Implementation blocks (`remove_asyncness_on_impl`) -/

/-- A `syn::ImplItem`: a method carrying its asyncness flag, or any other
impl item.  `payload` stands for the parts of the node the source never
inspects. -/
inductive ImplItem : Type where
  | method (asyncness : Bool) (payload : String)
  | otherImplItem (payload : String)
  deriving Repr

/-- `syn::ItemImpl`, restricted to what `remove_asyncness_on_impl`
touches: the attribute list and the impl items. -/
structure ItemImpl : Type where
  attrs : List Attr
  items : List ImplItem

/-- Modelled from the spec: `make_attr_from_str` (`utils.rs`, not under
`src/`) parses an attribute from its source text.  Only the two adapter
strings occur in `visitor_async.rs`; any other string is kept opaque. -/
def make_attr_from_str (s : String) : Attr :=
  if s == "async_trait::async_trait" then
    { path := ["async_trait", "async_trait"], args := .noArgs }
  else if s == "async_trait::async_trait(?Send)" then
    { path := ["async_trait", "async_trait"], args := .raw "?Send" }
  else
    { path := [], args := .raw s }

/-- `remove_asyncness_on_impl` (visitor_async.rs:84-111): under `intoSync`,
clears the asyncness flag of every method; under `intoAsync`, when `send`
is configured, builds `async_trait::async_trait` (for `send = true`) or
`async_trait::async_trait(?Send)` (for `send = false`) and pushes it onto
the end of the impl block's attribute list. -/
def remove_asyncness_on_impl (item : ItemImpl) (mode : ConvertMode)
    (send : Option Bool) : ItemImpl :=
  match mode with
  | .intoSync =>
    { item with
      items := item.items.map fun i =>
        match i with
        | .method _ p => .method false p
        | .otherImplItem p => .otherImplItem p }
  | .intoAsync =>
    match send with
    | some s =>
      let attr_str := if s then "async_trait::async_trait"
                      else "async_trait::async_trait(?Send)"
      { item with attrs := item.attrs ++ [make_attr_from_str attr_str] }
    | none => item

/-- `AsyncAwaitVisitor::process_item_impl` (visitor_async.rs:523-529):
applies `remove_asyncness_on_impl` only when recursive asyncness removal is
enabled in the parameters. -/
def process_item_impl (recursive_asyncness_removal : Bool)
    (send : Option Bool) (mode : ConvertMode) (item : ItemImpl) : ItemImpl :=
  if recursive_asyncness_removal then
    remove_asyncness_on_impl item mode send
  else item

/- ## Directive attributes (`process_attribute_if`, lib.rs markers) -/

/-- lib.rs:253. -/
def MACRO_ONLY_IF_NAME : String := "only_if"

/-- lib.rs:254. -/
def MACRO_REMOVE_IF_NAME : String := "remove_if"

/-- lib.rs:255. -/
def MACRO_NOOP_NAME : String := "noop"

/-- lib.rs:256. -/
def MACRO_REMOVE_NAME : String := "remove"

/-- Modelled from the spec: `MacroParameters::make_self_path` (`params.rs`,
not under `src/`) builds the path `PREFIX::name` from the configured
macro-name prefix, used to rewrite a directive attribute to one of the
system's own marker attributes. -/
def make_self_path (prefixName : String) (name : String) : List String :=
  [prefixName, name]

/-- Modelled from the spec: `MacroParameters::is_our_attr` (`params.rs`,
not under `src/`) recognizes an attribute of this system by the configured
macro-name prefix and returns the directive name behind it. -/
def is_our_attr (prefixName : String) (a : Attr) : Option String :=
  match a.path with
  | [p, n] => if p == prefixName then some n else none
  | _ => none

/-- Modelled from the spec: the erasure pass performed by the marker
attribute macros of lib.rs — `noop` (lib.rs:659) returns its body
unchanged, `remove` (lib.rs:666) returns an empty stream, every other name
is left for the compiler. -/
def marker_erasure {α : Type} (name : String) (body : α) : Option α :=
  if name = MACRO_NOOP_NAME then some body
  else if name = MACRO_REMOVE_NAME then none
  else some body

/-- The tokens of an attribute parsed as `AttributeArgsInParens`
(`utils.rs`, not under `src/`): succeeds exactly on a parenthesized meta
list. -/
def attr_parse_args_in_parens (a : Attr) : Except String (List NMeta) :=
  match a.args with
  | .list nested => .ok nested
  | _ => .error "expected parenthesized arguments"

/-- `AsyncAwaitVisitor::process_attribute_if` (visitor_async.rs:157-216):
parses the attribute's single argument (a string literal, a bare
identifier path, or `key = "..."`) into a key; with a configured current
variant key the directive succeeds iff the keys match XOR the directive is
negated (`remove_if`); without a configured key it never succeeds.  The
attribute's path is rewritten to the system's no-op marker on success and
to its removal marker otherwise. -/
def process_attribute_if (key_get : Option String) (prefixName : String)
    (attr : Attr) (neg : Bool) : Except String Attr :=
  match attr_parse_args_in_parens attr with
  | .error e => .error e
  | .ok args =>
    match args with
    | [] => .error "Expected ident"
    | [arg] =>
      let key? : Except String String :=
        match arg with
        | .mlit (.str s) => .ok s
        | .mpath p =>
          match path_get_ident p with
          | some s => .ok s
          | none => .error "Wrong ident"
        | .mnameValue p (.str value) =>
          if p = ["key"] then .ok value else .error "Wrong ident"
        | _ => .error "Wrong ident"
      match key? with
      | .error e => .error e
      | .ok key =>
        let success : Bool :=
          match key_get with
          | some currentKey => Bool.xor (currentKey == key) neg
          | none => false
        let newName := if success then MACRO_NOOP_NAME else MACRO_REMOVE_NAME
        .ok { attr with path := make_self_path prefixName newName }
    | _ => .error "Too many arguments"

/- ## Feature replacement and attribute post-processing (`process_attrs`) -/

/-- Modelled from the spec: `MacroParameters::replace_features_get`
(`params.rs`, not under `src/`) looks the old feature name up in the
variant's feature-replacement map. -/
def replace_features_get (repl : List (String × String)) (name : String) :
    Option String :=
  (repl.find? (fun p => p.1 == name)).map (fun p => p.2)

mutual

/-- `AsyncAwaitVisitor::process_replace_features_meta`
(visitor_async.rs:125-155): rewrites a `feature = "old"` name-value whose
old name is in the replacement map, recurses through the nested meta items
of every meta list, and reports whether anything changed. -/
def process_replace_features_meta (repl : List (String × String)) :
    NMeta → NMeta × Bool
  | .mnameValue p (.str s) =>
    match path_get_ident p with
    | some id =>
      if id == "feature" then
        match replace_features_get repl s with
        | some new => (.mnameValue p (.str new), true)
        | none => (.mnameValue p (.str s), false)
      else (.mnameValue p (.str s), false)
    | none => (.mnameValue p (.str s), false)
  | .mlist p nested =>
    let r := process_replace_features_list repl nested
    (.mlist p r.1, r.2)
  | .mnameValue p .otherLit => (.mnameValue p .otherLit, false)
  | .mpath p => (.mpath p, false)
  | .mlit l => (.mlit l, false)

/-- The `for nm in &mut list.nested` loop of
`process_replace_features_meta`: only `NestedMeta::Meta` elements are
recursed into (`mlit` elements are left alone). -/
def process_replace_features_list (repl : List (String × String)) :
    List NMeta → List NMeta × Bool
  | [] => ([], false)
  | nm :: rest =>
    let r1 : NMeta × Bool :=
      match nm with
      | .mlit l => (.mlit l, false)
      | m => process_replace_features_meta repl m
    let r2 := process_replace_features_list repl rest
    (r1.1 :: r2.1, r1.2 || r2.2)

end

mutual

/-- Modelled from the spec's words, for comparison with the source-derived
`process_replace_features_meta`: "any remaining cfg-style attribute
containing a feature-name literal present in the variant's
feature-replacement map has that literal rewritten to its replacement,
recursively through nested boolean-combinator argument lists". -/
def replace_features_spec (repl : List (String × String)) : NMeta → NMeta
  | .mnameValue p (.str s) =>
    match path_get_ident p with
    | some id =>
      if id == "feature" then
        match replace_features_get repl s with
        | some new => .mnameValue p (.str new)
        | none => .mnameValue p (.str s)
      else .mnameValue p (.str s)
    | none => .mnameValue p (.str s)
  | .mlist p nested => .mlist p (replace_features_spec_list repl nested)
  | .mnameValue p .otherLit => .mnameValue p .otherLit
  | .mpath p => .mpath p
  | .mlit l => .mlit l

/-- Spec-side companion of `replace_features_spec` for nested lists. -/
def replace_features_spec_list (repl : List (String × String)) :
    List NMeta → List NMeta
  | [] => []
  | nm :: rest =>
    replace_features_spec repl nm :: replace_features_spec_list repl rest

end

/-- The drop-list pass of `process_attrs` (visitor_async.rs:343-352):
when the variant's drop-list is non-empty, retain only the attributes whose
single-identifier path is not in the list (attributes with a multi-segment
path are always kept). -/
def drop_attrs_stage (dropList : List String) (attrs : List Attr) :
    List Attr :=
  if dropList.isEmpty then attrs
  else attrs.filter fun a =>
    match path_get_ident a.path with
    | some i => !(dropList.contains i)
    | none => true

/-- The per-attribute feature-replacement step of `process_attrs`
(visitor_async.rs:355-366): for an attribute named `cfg` whose tokens parse
as a meta item, run `process_replace_features_meta`; when something changed
and the result is a meta list, write its nested items back as the
attribute's tokens. -/
def replace_features_attr (repl : List (String × String)) (a : Attr) : Attr :=
  match path_get_ident a.path with
  | some i =>
    if i == "cfg" then
      match attr_parse_meta a with
      | some meta =>
        let r := process_replace_features_meta repl meta
        if r.2 then
          match r.1 with
          | .mlist _ nested => { a with args := .list nested }
          | _ => a
        else a
      | none => a
    else a
  | none => a

/-- The feature-replacement pass of `process_attrs`
(visitor_async.rs:354-368): skipped entirely when the replacement map is
empty. -/
def replace_features_stage (repl : List (String × String))
    (attrs : List Attr) : List Attr :=
  if repl.isEmpty then attrs
  else attrs.map (replace_features_attr repl)

/-- The part of `process_attrs` that runs after directive resolution
(visitor_async.rs:343-368): the drop-list pass followed by the
feature-replacement pass. -/
def process_attrs_rest (dropList : List String)
    (repl : List (String × String)) (attrs : List Attr) : List Attr :=
  replace_features_stage repl (drop_attrs_stage dropList attrs)

/-- The directive-resolution loop of `process_attrs`
(visitor_async.rs:330-341): every attribute recognized as one of the
system's own is dispatched on its directive name — `only_if` and
`remove_if` are resolved by `process_attribute_if`, every other name is
left unchanged for the compiler. -/
def process_attr_directives (key_get : Option String) (prefixName : String) :
    List Attr → Except String (List Attr)
  | [] => .ok []
  | a :: rest =>
    let a? : Except String Attr :=
      match is_our_attr prefixName a with
      | some n =>
        if n == MACRO_ONLY_IF_NAME then
          process_attribute_if key_get prefixName a false
        else if n == MACRO_REMOVE_IF_NAME then
          process_attribute_if key_get prefixName a true
        else .ok a
      | none => .ok a
    match a? with
    | .error e => .error e
    | .ok a' =>
      match process_attr_directives key_get prefixName rest with
      | .error e => .error e
      | .ok rest' => .ok (a' :: rest')

/-- `AsyncAwaitVisitor::process_attrs` (visitor_async.rs:326-371) with the
feature-gated doctest pass disabled: directive resolution, then the
drop-list pass, then the feature-replacement pass. -/
def process_attrs (key_get : Option String) (prefixName : String)
    (dropList : List String) (repl : List (String × String))
    (attrs : List Attr) : Except String (List Attr) :=
  match process_attr_directives key_get prefixName attrs with
  | .error e => .error e
  | .ok attrs' => .ok (process_attrs_rest dropList repl attrs')

/- ## Import declarations (`process_use_tree`) -/

/-- Modelled from the spec: an identifier rule (`params::IdentRule`,
`params.rs` not under `src/`) as far as `process_use_tree` consults it —
its `use_mode` flag and its rename computation `ident_add_suffix`, which
maps the base name, the conversion mode and the current variant key to the
variant-specific name. -/
structure IdentRule : Type where
  use_mode : Bool
  ident_add_suffix : String → ConvertMode → Option String → String

/-- `syn::UseTree`. -/
inductive UseTree : Type where
  | path (ident : String) (tree : UseTree)
  | name (ident : String)
  | rename (ident : String) (rename : String)
  | glob
  | group (trees : List UseTree)

/-- `AsyncAwaitVisitor::process_use_tree` (visitor_async.rs:583-617): a
path segment with a matching rule is renamed in place unless the rule has
`use_mode`; a leaf name with a matching rule becomes an alias binding
`ident as new_name` under `use_mode` (keeping the original identifier as
the left-hand side) and is renamed in place otherwise; every other node is
left unchanged. -/
def process_use_tree (idents_get : String → Option IdentRule)
    (mode : ConvertMode) (key : Option String) (node : UseTree) : UseTree :=
  match node with
  | .path id tree =>
    match idents_get id with
    | some ir =>
      if ir.use_mode then .path id tree
      else .path (ir.ident_add_suffix id mode key) tree
    | none => .path id tree
  | .name id =>
    match idents_get id with
    | some ir =>
      if ir.use_mode then .rename id (ir.ident_add_suffix id mode key)
      else .name (ir.ident_add_suffix id mode key)
    | none => .name id
  | t => t

/- # Theorems -/

/-- C1: under convert-to-blocking, a suspend-block expression with exactly
one statement is replaced by that statement re-parsed as an expression
(with no surrounding block delimiters — in particular a trailing
expression statement becomes exactly that expression), a suspend-block
with any other number of statements is replaced by a plain block
expression with the statement list unchanged in order and content, and
under convert-to-suspending the expression is left untouched. -/
theorem c1_suspend_block_collapse :
    (∀ (attrs : List Attr) (e : Expr),
      process_expr ConvertMode.intoSync (Expr.Async attrs (Block.mk [Stmt.expr e]))
        = some e)
    ∧ (∀ (attrs : List Attr) (s : Stmt),
      process_expr ConvertMode.intoSync (Expr.Async attrs (Block.mk [s]))
        = parse_stmt_as_expr s)
    ∧ (∀ (attrs : List Attr) (stmts : List Stmt), stmts.length ≠ 1 →
      process_expr ConvertMode.intoSync (Expr.Async attrs (Block.mk stmts))
        = some (Expr.Block attrs none (Block.mk stmts)))
    ∧ (∀ (attrs : List Attr) (blk : Block),
      process_expr ConvertMode.intoAsync (Expr.Async attrs blk)
        = some (Expr.Async attrs blk)) := by
  refine ⟨fun attrs e => rfl, fun attrs s => rfl, ?_, fun attrs blk => rfl⟩
  intro attrs stmts h
  match stmts with
  | [] => rfl
  | [s] => exact absurd rfl h
  | a :: b :: t => rfl

/-- Witness for C1 at a concrete two-statement suspend block. -/
theorem c1_suspend_block_collapse_witness :
    process_expr ConvertMode.intoSync
      (Expr.Async [] (Block.mk [Stmt.semi (Expr.otherExpr "a"), Stmt.semi (Expr.otherExpr "b")]))
      = some (Expr.Block [] none
          (Block.mk [Stmt.semi (Expr.otherExpr "a"), Stmt.semi (Expr.otherExpr "b")])) :=
  c1_suspend_block_collapse.2.2.1 []
    [Stmt.semi (Expr.otherExpr "a"), Stmt.semi (Expr.otherExpr "b")] (by simp)

/-- C2: under convert-to-blocking every suspend-expression is replaced by
its inner operand expression (the base of the await, preserved intact);
under convert-to-suspending it is left unchanged. -/
theorem c2_await_unwrap :
    (∀ (attrs : List Attr) (base : Expr),
      process_expr ConvertMode.intoSync (Expr.Await attrs base) = some base)
    ∧ (∀ (attrs : List Attr) (base : Expr),
      process_expr ConvertMode.intoAsync (Expr.Await attrs base)
        = some (Expr.Await attrs base)) :=
  ⟨fun _ _ => rfl, fun _ _ => rfl⟩

/-- C3: with a configured current variant key, an `only_if`/`remove_if`
directive with a well-formed single argument (quoted string, bare name, or
`key = "..."`) is rewritten to the no-op marker path exactly when the
argument's key equals the current key XOR the directive is negated, and to
the removal marker path otherwise; composing with the marker macros of
lib.rs, the annotated item is kept exactly on a match-XOR-negation. -/
theorem c3_conditional_directive :
    ∀ (ck pfx k : String) (neg : Bool) (path0 : List String),
      (process_attribute_if (some ck) pfx
          { path := path0, args := AttrArgs.list [NMeta.mlit (Lit.str k)] } neg
        = Except.ok ⟨make_self_path pfx
            (if Bool.xor (ck == k) neg then MACRO_NOOP_NAME else MACRO_REMOVE_NAME),
            AttrArgs.list [NMeta.mlit (Lit.str k)]⟩)
      ∧ (process_attribute_if (some ck) pfx
          { path := path0, args := AttrArgs.list [NMeta.mpath [k]] } neg
        = Except.ok ⟨make_self_path pfx
            (if Bool.xor (ck == k) neg then MACRO_NOOP_NAME else MACRO_REMOVE_NAME),
            AttrArgs.list [NMeta.mpath [k]]⟩)
      ∧ (process_attribute_if (some ck) pfx
          { path := path0, args := AttrArgs.list [NMeta.mnameValue ["key"] (Lit.str k)] } neg
        = Except.ok ⟨make_self_path pfx
            (if Bool.xor (ck == k) neg then MACRO_NOOP_NAME else MACRO_REMOVE_NAME),
            AttrArgs.list [NMeta.mnameValue ["key"] (Lit.str k)]⟩)
      ∧ (∀ {β : Type} (body : β),
          marker_erasure
              (if Bool.xor (ck == k) neg then MACRO_NOOP_NAME else MACRO_REMOVE_NAME) body
            = if Bool.xor (ck == k) neg then some body else none) := by
  intro ck pfx k neg path0
  refine ⟨?_, ?_, ?_, ?_⟩
  · simp [process_attribute_if, attr_parse_args_in_parens]
  · simp [process_attribute_if, attr_parse_args_in_parens, path_get_ident]
  · simp [process_attribute_if, attr_parse_args_in_parens]
  · intro β body
    cases h : Bool.xor (ck == k) neg <;>
      simp [marker_erasure, MACRO_NOOP_NAME, MACRO_REMOVE_NAME]

/-- C9: without a configured current variant key, both `only_if` and
`remove_if` resolve to "no match" regardless of the negation flag, so the
attribute is always rewritten to the removal marker and the annotated item
is deleted in that variant. -/
theorem c9_no_key_always_removes :
    ∀ (pfx k : String) (neg : Bool) (path0 : List String),
      (process_attribute_if none pfx
          { path := path0, args := AttrArgs.list [NMeta.mlit (Lit.str k)] } neg
        = Except.ok ⟨make_self_path pfx MACRO_REMOVE_NAME,
            AttrArgs.list [NMeta.mlit (Lit.str k)]⟩)
      ∧ (process_attribute_if none pfx
          { path := path0, args := AttrArgs.list [NMeta.mpath [k]] } neg
        = Except.ok ⟨make_self_path pfx MACRO_REMOVE_NAME,
            AttrArgs.list [NMeta.mpath [k]]⟩)
      ∧ (process_attribute_if none pfx
          { path := path0, args := AttrArgs.list [NMeta.mnameValue ["key"] (Lit.str k)] } neg
        = Except.ok ⟨make_self_path pfx MACRO_REMOVE_NAME,
            AttrArgs.list [NMeta.mnameValue ["key"] (Lit.str k)]⟩)
      ∧ (∀ {β : Type} (body : β), marker_erasure MACRO_REMOVE_NAME body = none) := by
  intro pfx k neg path0
  refine ⟨?_, ?_, ?_, ?_⟩
  · simp [process_attribute_if, attr_parse_args_in_parens]
  · simp [process_attribute_if, attr_parse_args_in_parens, path_get_ident]
  · simp [process_attribute_if, attr_parse_args_in_parens]
  · intro β body
    simp [marker_erasure, MACRO_NOOP_NAME, MACRO_REMOVE_NAME]

/-- C5: the generic-bound substitution pass does not report structural
violations as diagnostics — on a where-clause type predicate whose bounded
type is not a plain path it aborts abnormally with the panic message
`"Please submit an issue"`, and a `Future` bound whose first angle-bracketed
argument is not a binding is silently ignored (no error, no binding
recorded). -/
theorem c5_structural_violation_panics :
    process_item ConvertMode.intoSync
        (Item.fn [] (some [WherePredicate.type Ty.otherTy []]) Forest.nil) []
      = POutcome.panicked "Please submit an issue"
    ∧ search_future_trait_bound
        (TypeParamBound.traitBound
          [PathSeg.mk "Future" (PathArgs.angleBracketed [GenArg.otherArg])])
      = POutcome.ok none :=
  ⟨rfl, rfl⟩

/-- C6 counterexample: under convert-to-suspending with `send = true`, the
adapter attribute is appended after the impl block's existing attributes,
not prepended before them as the claim states. -/
theorem c6_prepend_counterexample :
    (remove_asyncness_on_impl
        ⟨[⟨["existing"], AttrArgs.noArgs⟩], []⟩ ConvertMode.intoAsync (some true)).attrs
      = [⟨["existing"], AttrArgs.noArgs⟩,
         ⟨["async_trait", "async_trait"], AttrArgs.noArgs⟩]
    ∧ (remove_asyncness_on_impl
        ⟨[⟨["existing"], AttrArgs.noArgs⟩], []⟩ ConvertMode.intoAsync (some true)).attrs
      ≠ [⟨["async_trait", "async_trait"], AttrArgs.noArgs⟩,
         ⟨["existing"], AttrArgs.noArgs⟩] := by
  constructor
  · rfl
  · intro h
    rw [show (remove_asyncness_on_impl
        ⟨[⟨["existing"], AttrArgs.noArgs⟩], []⟩ ConvertMode.intoAsync (some true)).attrs
      = [⟨["existing"], AttrArgs.noArgs⟩,
         ⟨["async_trait", "async_trait"], AttrArgs.noArgs⟩] from rfl] at h
    have h1 : (⟨["existing"], AttrArgs.noArgs⟩ : Attr)
        = ⟨["async_trait", "async_trait"], AttrArgs.noArgs⟩ := by
      injection h
    have h2 : ["existing"] = ["async_trait", "async_trait"] := by
      injection h1
    simp at h2

/-- C6 (amended): when an implementation block is rewritten under
convert-to-suspending and `send` is configured, the adapter attribute
(`async_trait::async_trait` for the ordering-sensitive state `send = true`,
`async_trait::async_trait(?Send)` for `send = false`) is appended to the
block's attribute list, i.e. it appears after the block's existing
attributes; when the marker is absent no attribute is added. -/
theorem c6_send_appends_adapter :
    ∀ (attrs : List Attr) (items : List ImplItem) (s : Bool),
      remove_asyncness_on_impl ⟨attrs, items⟩ ConvertMode.intoAsync (some s)
        = ⟨attrs ++ [make_attr_from_str
            (if s then "async_trait::async_trait"
             else "async_trait::async_trait(?Send)")], items⟩
      ∧ remove_asyncness_on_impl ⟨attrs, items⟩ ConvertMode.intoAsync none
        = ⟨attrs, items⟩
      ∧ make_attr_from_str "async_trait::async_trait"
        = ⟨["async_trait", "async_trait"], AttrArgs.noArgs⟩
      ∧ make_attr_from_str "async_trait::async_trait(?Send)"
        = ⟨["async_trait", "async_trait"], AttrArgs.raw "?Send"⟩ := by
  intro attrs items s
  refine ⟨?_, rfl, rfl, rfl⟩
  cases s <;> rfl

/-- C8: for a leaf name in an import declaration matching a configured
identifier rule, use-mode produces the alias binding `name as new_name`
with the computed variant name and the original identifier kept unchanged
on the left, while a matching rule without use-mode replaces the
identifier in place. -/
theorem c8_use_mode_alias :
    ∀ (ig : String → Option IdentRule) (mode : ConvertMode) (key : Option String)
      (id : String) (ir : IdentRule), ig id = some ir →
      (ir.use_mode = true →
        process_use_tree ig mode key (UseTree.name id)
          = UseTree.rename id (ir.ident_add_suffix id mode key))
      ∧ (ir.use_mode = false →
        process_use_tree ig mode key (UseTree.name id)
          = UseTree.name (ir.ident_add_suffix id mode key)) := by
  intro ig mode key id ir h
  constructor <;> intro hu <;> simp [process_use_tree, h, hu]

/-- Witness for C8 at a concrete rule table: a use-mode rule for `foo`
renders the alias `foo as fooSync` and an in-place rule renders `fooSync`. -/
theorem c8_use_mode_alias_witness :
    process_use_tree
        (fun n => if n = "foo"
          then some ⟨true, fun nm _ _ => nm ++ "Sync"⟩ else none)
        ConvertMode.intoSync (some "sync") (UseTree.name "foo")
      = UseTree.rename "foo" "fooSync"
    ∧ process_use_tree
        (fun n => if n = "foo"
          then some ⟨false, fun nm _ _ => nm ++ "Sync"⟩ else none)
        ConvertMode.intoSync (some "sync") (UseTree.name "foo")
      = UseTree.name "fooSync" := by
  constructor
  · exact (c8_use_mode_alias
      (fun n => if n = "foo" then some ⟨true, fun nm _ _ => nm ++ "Sync"⟩ else none)
      ConvertMode.intoSync (some "sync") "foo"
      ⟨true, fun nm _ _ => nm ++ "Sync"⟩ (by simp)).1 rfl
  · exact (c8_use_mode_alias
      (fun n => if n = "foo" then some ⟨false, fun nm _ _ => nm ++ "Sync"⟩ else none)
      ConvertMode.intoSync (some "sync") "foo"
      ⟨false, fun nm _ _ => nm ++ "Sync"⟩ (by simp)).2 rfl

/-- Pushing a scope onto the stack adds it at the back, and `generics_get`
consults it only after every scope already on the stack. -/
theorem generics_get_push (st : GenStack) (g : Scope) (key : String) :
    generics_get (generics_push st g) key
      = match generics_get st key with
        | some v => some v
        | none => scope_get g key := by
  induction st with
  | nil =>
    cases h : scope_get g key <;> simp [generics_push, generics_get, h]
  | cons s rest ih =>
    have : generics_push (s :: rest) g = s :: generics_push rest g := by
      simp [generics_push]
    rw [this]
    cases h : scope_get s key <;> simp [generics_get, h, ih]

/-- C4 counterexample: with the same name bound in two scopes, the binding
of the first-pushed (outermost) scope is returned, not the binding of the
most recently pushed (innermost) scope as the claim states. -/
theorem c4_innermost_wins_counterexample :
    generics_get
        (generics_push (generics_push [] [("T", PathSeg.mk "OuterOut" PathArgs.noArgs)])
          [("T", PathSeg.mk "InnerOut" PathArgs.noArgs)]) "T"
      = some (PathSeg.mk "OuterOut" PathArgs.noArgs)
    ∧ PathSeg.mk "OuterOut" PathArgs.noArgs ≠ PathSeg.mk "InnerOut" PathArgs.noArgs := by
  constructor
  · rfl
  · intro h
    have h1 : "OuterOut" = "InnerOut" := by injection h
    simp at h1

/-- C4 (amended): generic-binding scopes nest with outermost-wins lookup —
when a path-segment identifier is bound in more than one scope on the
stack, the substitution uses the binding from the earliest-pushed
(outermost) scope, a newly pushed scope never shadowing an enclosing one;
the newly pushed scope is consulted only for names no enclosing scope
binds, path segments are substituted through that lookup, and the scope is
popped when the traversal leaves its function. -/
theorem c4_outermost_wins :
    (∀ (st : GenStack) (g : Scope) (key : String) (v : PathSeg),
        generics_get st key = some v →
        generics_get (generics_push st g) key = some v)
    ∧ (∀ (st : GenStack) (g : Scope) (key : String),
        generics_get st key = none →
        generics_get (generics_push st g) key = scope_get g key)
    ∧ (∀ (st : GenStack) (seg : PathSeg) (v : PathSeg),
        generics_get st seg.ident = some v → process_path_segment st seg = v)
    ∧ (∀ (g : List GenericParam) (w : Option (List WherePredicate)) (f : Forest)
        (st : GenStack),
        after_process_item ConvertMode.intoSync (Item.fn g w f) st = generics_pop st)
    ∧ (∀ (st : GenStack) (g : Scope), generics_pop (generics_push st g) = st) := by
  refine ⟨?_, ?_, ?_, fun g w f st => rfl, ?_⟩
  · intro st g key v h
    rw [generics_get_push, h]
  · intro st g key h
    rw [generics_get_push, h]
  · intro st seg v h
    simp [process_path_segment, h]
  · intro st g
    simp [generics_pop, generics_push]

/-- Witness for C4 (amended) at a concrete two-scope stack. -/
theorem c4_outermost_wins_witness :
    generics_get
        (generics_push [[("T", PathSeg.mk "OuterOut" PathArgs.noArgs)]]
          [("T", PathSeg.mk "InnerOut" PathArgs.noArgs)]) "T"
      = some (PathSeg.mk "OuterOut" PathArgs.noArgs)
    ∧ process_path_segment [[("T", PathSeg.mk "OuterOut" PathArgs.noArgs)]]
        (PathSeg.mk "T" PathArgs.noArgs)
      = PathSeg.mk "OuterOut" PathArgs.noArgs := by
  constructor
  · exact c4_outermost_wins.1 [[("T", PathSeg.mk "OuterOut" PathArgs.noArgs)]]
      [("T", PathSeg.mk "InnerOut" PathArgs.noArgs)] "T"
      (PathSeg.mk "OuterOut" PathArgs.noArgs) rfl
  · exact c4_outermost_wins.2.2.1 [[("T", PathSeg.mk "OuterOut" PathArgs.noArgs)]]
      (PathSeg.mk "T" PathArgs.noArgs) (PathSeg.mk "OuterOut" PathArgs.noArgs) rfl

/-- Popping right after a push restores the original stack. -/
theorem generics_pop_push (st : GenStack) (g : Scope) :
    generics_pop (generics_push st g) = st := by
  simp [generics_pop, generics_push]

/-- Under convert-to-blocking, a successful `process_item` on a function
item pushes exactly the collected generic-binding map onto the stack. -/
theorem process_item_sync_fn_ok (g : List GenericParam)
    (w : Option (List WherePredicate)) (body : Forest) (st : GenStack)
    (p : Item × GenStack)
    (h : process_item ConvertMode.intoSync (Item.fn g w body) st = POutcome.ok p) :
    ∃ gens, collect_fn_gens g w = POutcome.ok gens
      ∧ p.2 = generics_push st gens := by
  simp only [process_item] at h
  cases hc : collect_fn_gens g w with
  | panicked m => rw [hc] at h; simp [POutcome.bind] at h
  | ok gens =>
    rw [hc] at h
    simp only [POutcome.bind] at h
    refine ⟨gens, rfl, ?_⟩
    cases h
    rfl

/-- `process_item` on a non-function item under convert-to-blocking leaves
the item and the stack unchanged. -/
theorem process_item_sync_other (c : Forest) (st : GenStack) :
    process_item ConvertMode.intoSync (Item.other c) st
      = POutcome.ok (Item.other c, st) := rfl

mutual

/-- A successful convert-to-blocking traversal of one item restores the
scope stack it started from. -/
theorem traverse_sync_preserves : ∀ (i : Item) (st st' : GenStack),
    traverse ConvertMode.intoSync i st = POutcome.ok st' → st' = st
  | Item.fn g w body, st, st', h => by
    simp only [traverse] at h
    cases hp : process_item ConvertMode.intoSync (Item.fn g w body) st with
    | panicked m => rw [hp] at h; simp at h
    | ok p =>
      obtain ⟨i2, st2⟩ := p
      simp only [hp] at h
      cases hf : traverse_forest ConvertMode.intoSync body st2 with
      | panicked m => rw [hf] at h; simp at h
      | ok st3 =>
        simp only [hf] at h
        obtain ⟨gens, _, hst2⟩ :=
          process_item_sync_fn_ok g w body st (i2, st2) hp
        have h3 : st3 = st2 := traverse_forest_sync_preserves body st2 st3 hf
        have h4 : after_process_item ConvertMode.intoSync (Item.fn g w body) st3
            = generics_pop st3 := rfl
        rw [h4] at h
        cases h
        rw [h3]
        rw [show st2 = generics_push st gens from hst2]
        exact generics_pop_push st gens
  | Item.other c, st, st', h => by
    simp only [traverse] at h
    simp only [process_item_sync_other] at h
    cases hf : traverse_forest ConvertMode.intoSync c st with
    | panicked m => rw [hf] at h; simp at h
    | ok st3 =>
      simp only [hf] at h
      have h3 : st3 = st := traverse_forest_sync_preserves c st st3 hf
      have h4 : after_process_item ConvertMode.intoSync (Item.other c) st3 = st3 := rfl
      rw [h4] at h
      cases h
      exact h3

/-- A successful convert-to-blocking traversal of sibling items restores
the scope stack it started from. -/
theorem traverse_forest_sync_preserves : ∀ (f : Forest) (st st' : GenStack),
    traverse_forest ConvertMode.intoSync f st = POutcome.ok st' → st' = st
  | Forest.nil, st, st', h => by
    simp only [traverse_forest] at h
    cases h
    rfl
  | Forest.cons i rest, st, st', h => by
    simp only [traverse_forest] at h
    cases ht : traverse ConvertMode.intoSync i st with
    | panicked m => rw [ht] at h; simp at h
    | ok st1 =>
      simp only [ht] at h
      have h1 : st1 = st := traverse_sync_preserves i st st1 ht
      have h2 : st' = st1 := traverse_forest_sync_preserves rest st1 st' h
      rw [h2, h1]

end

mutual

/-- Under convert-to-suspending the traversal never touches the scope
stack and never panics. -/
theorem traverse_async_id : ∀ (i : Item) (st : GenStack),
    traverse ConvertMode.intoAsync i st = POutcome.ok st
  | Item.fn g w body, st => by
    have hb := traverse_forest_async_id body st
    simp [traverse, process_item, POutcome.bind, hb, after_process_item]
  | Item.other c, st => by
    have hb := traverse_forest_async_id c st
    simp [traverse, process_item, POutcome.bind, hb, after_process_item]

/-- Under convert-to-suspending the forest traversal never touches the
scope stack and never panics. -/
theorem traverse_forest_async_id : ∀ (f : Forest) (st : GenStack),
    traverse_forest ConvertMode.intoAsync f st = POutcome.ok st
  | Forest.nil, st => by simp [traverse_forest]
  | Forest.cons i rest, st => by
    have hi := traverse_async_id i st
    have hr := traverse_forest_async_id rest st
    simp [traverse_forest, hi, hr]

end

/-- C10: under convert-to-blocking, entering a function item pushes exactly
one generic-binding map (possibly empty) onto the scope stack and leaving
it pops exactly one, so a successful traversal returns the stack it
started from (in particular, a whole-tree traversal started on the empty
stack ends on the empty stack); under convert-to-suspending neither
`process_item` nor `after_process_item` ever touches the stack. -/
theorem c10_stack_balanced :
    (∀ (i : Item) (st st' : GenStack),
        traverse ConvertMode.intoSync i st = POutcome.ok st' → st' = st)
    ∧ (∀ (i : Item) (st : GenStack),
        traverse ConvertMode.intoAsync i st = POutcome.ok st)
    ∧ (∀ (g : List GenericParam) (w : Option (List WherePredicate)) (f : Forest)
        (st : GenStack) (p : Item × GenStack),
        process_item ConvertMode.intoSync (Item.fn g w f) st = POutcome.ok p →
        ∃ gens, p.2 = generics_push st gens
          ∧ p.2.length = st.length + 1)
    ∧ (∀ (g : List GenericParam) (w : Option (List WherePredicate)) (f : Forest)
        (st : GenStack),
        after_process_item ConvertMode.intoSync (Item.fn g w f) st = generics_pop st)
    ∧ (∀ (i : Item) (st : GenStack),
        process_item ConvertMode.intoAsync i st = POutcome.ok (i, st)
          ∧ after_process_item ConvertMode.intoAsync i st = st) := by
  refine ⟨traverse_sync_preserves, traverse_async_id, ?_, fun g w f st => rfl,
    fun i st => ⟨rfl, rfl⟩⟩
  intro g w f st p hp
  obtain ⟨gens, _, h2⟩ := process_item_sync_fn_ok g w f st p hp
  refine ⟨gens, h2, ?_⟩
  rw [h2]
  simp [generics_push]

/-- Witness for C10 at a concrete nested-function tree: a function with a
Future-bounded type parameter containing a nested function, traversed from
a one-scope stack, returns that stack; `process_item` on it pushes exactly
one scope. -/
theorem c10_stack_balanced_witness :
    ([[]] : GenStack) = [[]]
    ∧ (∃ gens, ((Item.fn [] none (Forest.cons (Item.fn [] none Forest.nil) Forest.nil),
        generics_push [[]] [("T", PathSeg.mk "u8" PathArgs.noArgs)]) : Item × GenStack).2
          = generics_push [[]] gens
        ∧ (generics_push [[]] [("T", PathSeg.mk "u8" PathArgs.noArgs)]).length
          = ([[]] : GenStack).length + 1) := by
  constructor
  · exact c10_stack_balanced.1
      (Item.fn
        [GenericParam.type "T" [TypeParamBound.traitBound
          [PathSeg.mk "Future" (PathArgs.angleBracketed
            [GenArg.binding "Output" (Ty.path [PathSeg.mk "u8" PathArgs.noArgs])])]]]
        none (Forest.cons (Item.fn [] none Forest.nil) Forest.nil))
      [[]] [[]] (by rfl)
  · exact c10_stack_balanced.2.2.1
      [GenericParam.type "T" [TypeParamBound.traitBound
        [PathSeg.mk "Future" (PathArgs.angleBracketed
          [GenArg.binding "Output" (Ty.path [PathSeg.mk "u8" PathArgs.noArgs])])]]]
      none (Forest.cons (Item.fn [] none Forest.nil) Forest.nil) [[]]
      _ (by rfl)

mutual

/-- The source feature-replacement recursion computes exactly the
spec-level recursive replacement. -/
theorem prf_meta_eq_spec (repl : List (String × String)) : ∀ (m : NMeta),
    (process_replace_features_meta repl m).1 = replace_features_spec repl m
  | NMeta.mnameValue p (Lit.str s) => by
    cases hid : path_get_ident p with
    | none => simp [process_replace_features_meta, replace_features_spec, hid]
    | some id =>
      cases hf : (id == "feature") with
      | false => simp [process_replace_features_meta, replace_features_spec, hid, hf]
      | true =>
        cases hl : replace_features_get repl s <;>
          simp [process_replace_features_meta, replace_features_spec, hid, hf, hl]
  | NMeta.mnameValue p Lit.otherLit => rfl
  | NMeta.mpath p => rfl
  | NMeta.mlit l => rfl
  | NMeta.mlist p nested => by
    have h := prf_list_eq_spec repl nested
    simp [process_replace_features_meta, replace_features_spec, h]

/-- List companion of `prf_meta_eq_spec`. -/
theorem prf_list_eq_spec (repl : List (String × String)) : ∀ (l : List NMeta),
    (process_replace_features_list repl l).1 = replace_features_spec_list repl l
  | [] => rfl
  | nm :: rest => by
    have hr := prf_list_eq_spec repl rest
    cases nm with
    | mlit l =>
      simp [process_replace_features_list, replace_features_spec_list,
        replace_features_spec, hr]
    | mpath p =>
      have hm := prf_meta_eq_spec repl (NMeta.mpath p)
      simp [process_replace_features_list, replace_features_spec_list, hm, hr]
    | mnameValue p lit =>
      have hm := prf_meta_eq_spec repl (NMeta.mnameValue p lit)
      simp [process_replace_features_list, replace_features_spec_list, hm, hr]
    | mlist p nested =>
      have hm := prf_meta_eq_spec repl (NMeta.mlist p nested)
      simp [process_replace_features_list, replace_features_spec_list, hm, hr]

end

mutual

/-- Either the feature-replacement recursion left its input unchanged or
it reported a change. -/
theorem prf_meta_flag (repl : List (String × String)) : ∀ (m : NMeta),
    (process_replace_features_meta repl m).1 = m
      ∨ (process_replace_features_meta repl m).2 = true
  | NMeta.mnameValue p (Lit.str s) => by
    cases hid : path_get_ident p with
    | none => left; simp [process_replace_features_meta, hid]
    | some id =>
      cases hf : (id == "feature") with
      | false => left; simp [process_replace_features_meta, hid, hf]
      | true =>
        cases hl : replace_features_get repl s with
        | none => left; simp [process_replace_features_meta, hid, hf, hl]
        | some new => right; simp [process_replace_features_meta, hid, hf, hl]
  | NMeta.mnameValue p Lit.otherLit => Or.inl rfl
  | NMeta.mpath p => Or.inl rfl
  | NMeta.mlit l => Or.inl rfl
  | NMeta.mlist p nested => by
    cases prf_list_flag repl nested with
    | inl h => left; simp only [process_replace_features_meta]; rw [h]
    | inr h => right; simp only [process_replace_features_meta]; exact h

/-- List companion of `prf_meta_flag`. -/
theorem prf_list_flag (repl : List (String × String)) : ∀ (l : List NMeta),
    (process_replace_features_list repl l).1 = l
      ∨ (process_replace_features_list repl l).2 = true
  | [] => Or.inl rfl
  | NMeta.mlit l :: rest => by
    have hr := prf_list_flag repl rest
    simp only [process_replace_features_list]
    cases hr with
    | inl h2 => left; rw [h2]
    | inr h2 => right; simp [h2]
  | NMeta.mpath p :: rest => by
    have h1 := prf_meta_flag repl (NMeta.mpath p)
    have hr := prf_list_flag repl rest
    simp only [process_replace_features_list]
    cases h1 with
    | inr hh => right; simp [hh]
    | inl hh =>
      cases hr with
      | inr h2 => right; simp [h2]
      | inl h2 => left; rw [hh, h2]
  | NMeta.mnameValue p lit :: rest => by
    have h1 := prf_meta_flag repl (NMeta.mnameValue p lit)
    have hr := prf_list_flag repl rest
    simp only [process_replace_features_list]
    cases h1 with
    | inr hh => right; simp [hh]
    | inl hh =>
      cases hr with
      | inr h2 => right; simp [h2]
      | inl h2 => left; rw [hh, h2]
  | NMeta.mlist p nested :: rest => by
    have h1 := prf_meta_flag repl (NMeta.mlist p nested)
    have hr := prf_list_flag repl rest
    simp only [process_replace_features_list]
    cases h1 with
    | inr hh => right; simp [hh]
    | inl hh =>
      cases hr with
      | inr h2 => right; simp [h2]
      | inl h2 => left; rw [hh, h2]

end

/-- When the changed flag is false, the feature-replacement recursion
returned its input unchanged. -/
theorem prf_meta_unchanged (repl : List (String × String)) (m : NMeta)
    (h : (process_replace_features_meta repl m).2 = false) :
    (process_replace_features_meta repl m).1 = m := by
  cases prf_meta_flag repl m with
  | inl h1 => exact h1
  | inr h1 => rw [h1] at h; exact absurd h (by simp)

/-- List companion of `prf_meta_unchanged`. -/
theorem prf_list_unchanged (repl : List (String × String)) (l : List NMeta)
    (h : (process_replace_features_list repl l).2 = false) :
    (process_replace_features_list repl l).1 = l := by
  cases prf_list_flag repl l with
  | inl h1 => exact h1
  | inr h1 => rw [h1] at h; exact absurd h (by simp)

mutual

/-- With an empty replacement map the feature-replacement recursion is the
identity with a false changed flag. -/
theorem prf_meta_empty : ∀ (m : NMeta),
    process_replace_features_meta [] m = (m, false)
  | NMeta.mnameValue p (Lit.str s) => by
    cases hid : path_get_ident p with
    | none => simp [process_replace_features_meta, hid]
    | some id =>
      cases hf : (id == "feature") with
      | false => simp [process_replace_features_meta, hid, hf]
      | true => simp [process_replace_features_meta, hid, hf, replace_features_get]
  | NMeta.mnameValue p Lit.otherLit => rfl
  | NMeta.mpath p => rfl
  | NMeta.mlit l => rfl
  | NMeta.mlist p nested => by
    have h := prf_list_empty nested
    show (NMeta.mlist p (process_replace_features_list [] nested).1,
      (process_replace_features_list [] nested).2) = (NMeta.mlist p nested, false)
    rw [h]

/-- List companion of `prf_meta_empty`. -/
theorem prf_list_empty : ∀ (l : List NMeta),
    process_replace_features_list [] l = (l, false)
  | [] => rfl
  | nm :: rest => by
    have hr := prf_list_empty rest
    cases nm with
    | mlit l => simp [process_replace_features_list, hr]
    | mpath p => simp [process_replace_features_list, hr, prf_meta_empty (NMeta.mpath p)]
    | mnameValue p lit =>
      simp [process_replace_features_list, hr, prf_meta_empty (NMeta.mnameValue p lit)]
    | mlist p nested =>
      simp [process_replace_features_list, hr, prf_meta_empty (NMeta.mlist p nested)]

end

/-- With an empty replacement map the per-attribute replacement step is
the identity. -/
theorem replace_features_attr_empty (a : Attr) :
    replace_features_attr [] a = a := by
  unfold replace_features_attr
  cases hid : path_get_ident a.path with
  | none => rfl
  | some i =>
    cases hi : (i == "cfg") with
    | false => simp [hi]
    | true =>
      cases hm : attr_parse_meta a with
      | none => simp [hi, hm]
      | some meta => simp [hi, hm, prf_meta_empty meta]

/-- The per-attribute replacement step never changes the attribute's
path. -/
theorem replace_features_attr_path (repl : List (String × String)) (a : Attr) :
    (replace_features_attr repl a).path = a.path := by
  unfold replace_features_attr
  cases hid : path_get_ident a.path with
  | none => rfl
  | some i =>
    cases hi : (i == "cfg") with
    | false => simp [hi]
    | true =>
      cases hm : attr_parse_meta a with
      | none => simp [hi, hm]
      | some meta =>
        simp only [hi, hm, if_true]
        cases hc : (process_replace_features_meta repl meta).2 with
        | false => simp [hc]
        | true =>
          cases hr : (process_replace_features_meta repl meta).1 <;> simp [hc, hr]

/-- The feature-replacement pass equals a plain map of the per-attribute
step (the empty-map shortcut included). -/
theorem replace_features_stage_eq_map (repl : List (String × String))
    (l : List Attr) :
    replace_features_stage repl l = l.map (replace_features_attr repl) := by
  unfold replace_features_stage
  cases hr : repl.isEmpty with
  | true =>
    have : repl = [] := by
      cases repl with
      | nil => rfl
      | cons x xs => simp [List.isEmpty] at hr
    subst this
    simp only [if_true]
    induction l with
    | nil => rfl
    | cons a rest ih => simp [replace_features_attr_empty, ← ih]
  | false => simp [hr]

/-- The drop-list pass equals a plain filter on the drop predicate (the
empty-list shortcut included). -/
theorem drop_attrs_stage_eq_filter (dropList : List String)
    (attrs : List Attr) :
    drop_attrs_stage dropList attrs
      = attrs.filter fun a =>
          match path_get_ident a.path with
          | some i => !(dropList.contains i)
          | none => true := by
  unfold drop_attrs_stage
  cases hd : dropList.isEmpty with
  | true =>
    have : dropList = [] := by
      cases dropList with
      | nil => rfl
      | cons x xs => simp [List.isEmpty] at hd
    subst this
    simp only [if_true]
    symm
    apply List.filter_eq_self.mpr
    intro a _
    cases hp : path_get_ident a.path <;> simp [hp]
  | false => simp [hd]

/-- The post-directive attribute pass is the drop filter followed by the
replacement map. -/
theorem process_attrs_rest_eq (dropList : List String)
    (repl : List (String × String)) (attrs : List Attr) :
    process_attrs_rest dropList repl attrs
      = ((attrs.filter fun a =>
            match path_get_ident a.path with
            | some i => !(dropList.contains i)
            | none => true).map (replace_features_attr repl)) := by
  unfold process_attrs_rest
  rw [drop_attrs_stage_eq_filter, replace_features_stage_eq_map]

/-- A `cfg` attribute with a parenthesized meta list gets its nested items
rewritten to the spec-level recursive replacement (whether or not the
changed flag caused the tokens to be written back). -/
theorem replace_features_attr_cfg (repl : List (String × String))
    (nested : List NMeta) :
    replace_features_attr repl ⟨["cfg"], AttrArgs.list nested⟩
      = ⟨["cfg"], AttrArgs.list (replace_features_spec_list repl nested)⟩ := by
  unfold replace_features_attr
  simp only [path_get_ident, attr_parse_meta, beq_self_eq_true, if_true,
    process_replace_features_meta]
  cases hc : (process_replace_features_list repl nested).2 with
  | true =>
    simp only [hc, if_true]
    rw [prf_list_eq_spec]
  | false =>
    simp only [hc, Bool.false_eq_true, if_false]
    have h1 := prf_list_unchanged repl nested hc
    rw [← prf_list_eq_spec repl nested, h1]

/-- C7: after directive resolution, the drop-list pass removes exactly the
attributes whose single-identifier name is in the variant's drop-list
(order and other attributes preserved), and the feature-replacement pass
rewrites every `feature = "old"` literal with `old` in the replacement map
inside each remaining `cfg` attribute, recursing through nested
boolean-combinator argument lists, leaving every non-`cfg` attribute
unchanged; no attribute named in the drop-list survives. -/
theorem c7_drop_and_replace :
    (∀ (dropList : List String) (repl : List (String × String)) (attrs : List Attr),
        process_attrs_rest dropList repl attrs
          = ((attrs.filter fun a =>
                match path_get_ident a.path with
                | some i => !(dropList.contains i)
                | none => true).map (replace_features_attr repl)))
    ∧ (∀ (repl : List (String × String)) (a : Attr),
        path_get_ident a.path ≠ some "cfg" → replace_features_attr repl a = a)
    ∧ (∀ (repl : List (String × String)) (m : NMeta),
        (process_replace_features_meta repl m).1 = replace_features_spec repl m)
    ∧ (∀ (repl : List (String × String)) (nested : List NMeta),
        replace_features_attr repl ⟨["cfg"], AttrArgs.list nested⟩
          = ⟨["cfg"], AttrArgs.list (replace_features_spec_list repl nested)⟩)
    ∧ (∀ (dropList : List String) (repl : List (String × String))
        (attrs : List Attr) (a : Attr),
        a ∈ process_attrs_rest dropList repl attrs →
        ∀ i, path_get_ident a.path = some i → dropList.contains i = false) := by
  refine ⟨process_attrs_rest_eq, ?_, prf_meta_eq_spec, replace_features_attr_cfg, ?_⟩
  · intro repl a h
    unfold replace_features_attr
    cases hid : path_get_ident a.path with
    | none => rfl
    | some i =>
      have hi : (i == "cfg") = false := by
        cases hic : (i == "cfg") with
        | false => rfl
        | true =>
          have hieq : i = "cfg" := by simpa using hic
          have : path_get_ident a.path = some "cfg" := by rw [hid, hieq]
          exact absurd this h
      simp [hi]
  · intro dropList repl attrs a ha i hi
    rw [process_attrs_rest_eq] at ha
    obtain ⟨b, hb, rfl⟩ := List.mem_map.mp ha
    have hpath := replace_features_attr_path repl b
    have hbf := List.mem_filter.mp hb
    have hpred := hbf.2
    rw [hpath] at hi
    rw [hi] at hpred
    simpa using hpred

/-- Witness for C7: a non-`cfg` attribute passes the replacement step
unchanged, and an attribute surviving the pass is not in the drop-list. -/
theorem c7_drop_and_replace_witness :
    replace_features_attr [("old", "new")] ⟨["allow"], AttrArgs.noArgs⟩
      = ⟨["allow"], AttrArgs.noArgs⟩
    ∧ (["forbidden"] : List String).contains "allow" = false := by
  constructor
  · exact c7_drop_and_replace.2.1 [("old", "new")] ⟨["allow"], AttrArgs.noArgs⟩
      (by simp [path_get_ident])
  · exact c7_drop_and_replace.2.2.2.2 ["forbidden"] [("old", "new")]
      [⟨["allow"], AttrArgs.noArgs⟩] ⟨["allow"], AttrArgs.noArgs⟩
      (by rw [show process_attrs_rest ["forbidden"] [("old", "new")]
            [⟨["allow"], AttrArgs.noArgs⟩] = [⟨["allow"], AttrArgs.noArgs⟩] from rfl]
          exact List.mem_singleton.mpr rfl) "allow" rfl

end MaybeAsyncCfg
